import Mathlib

/-!
vaporworld: the `light` demo (`src/light/main.cpp`) and `Compare`
(`sgl/public/templates/functional.h`).

A shallow embedding of the host-side logic of the demo: the noise-table generator
(`setupPerlin`), the uniform cache of `ShaderProgram`, the start-up sequence that
loads, compiles and links the two compute programs, the event loop, the camera
integrator, and the three-way comparison functor `Compare`.

Conventions.
* `float32` quantities are embedded in a field `R`; the C math functions (`cos`,
  `sin`, `sqrt`) and the constant `M_PI` are parameters of the definitions that use
  them, so every definition stays executable. The theorems instantiate them with
  the real functions.
* The results of the successive `rand()` calls are a function `rand : Nat → Nat`,
  `rand i` being the value returned by the call made in iteration `i`.
* Calls into the GL driver are recorded as a list of events.
-/

namespace Vaporworld

/-! ## `Compare` (functional.h) -/

/-- The conversion `int32(bool)`. -/
def int32OfBool (b : Bool) : Int := if b then 1 else 0

/-- `Compare::operator()`: `int32(a > b) - int32(a < b)`. -/
def Compare {A : Type} [LinearOrder A] (a b : A) : Int :=
  int32OfBool (decide (a > b)) - int32OfBool (decide (a < b))

/-! ## Noise table: the permutation (main.cpp, `setupPerlin`) -/

/-- `swap(perms[i], perms[k])`: exchange through a temporary. -/
def swap (perms : List Nat) (i k : Nat) : List Nat :=
  let t := perms.getD i 0
  (perms.set i (perms.getD k 0)).set k t

/-- The first loop of `setupPerlin`: `perms[i] = i` for `i < 0x100`. -/
def identityFill : List Nat := List.range 0x100

/-- Loop variables of the shuffle that survive an iteration: `range` and the table. -/
structure ShuffleState where
  range : Nat
  perms : List Nat
deriving Repr

/-- One iteration of the shuffle loop, at index `i`:
`uint8 k = rand() % range + i; swap(perms[i], perms[k]);` followed by `--range`.
The conversion to `uint8` is the reduction modulo 256. -/
def shuffleStep (rand : Nat → Nat) (st : ShuffleState) (i : Nat) : ShuffleState :=
  let k := (rand i % st.range + i) % 256
  { range := st.range - 1, perms := swap st.perms i k }

/-- The shuffle loop run for its first `n` iterations (`i = 0, …, n - 1`), starting
from `range = 0x100` and the identity table. -/
def shuffleLoop (rand : Nat → Nat) (n : Nat) : ShuffleState :=
  (List.range n).foldl (shuffleStep rand) { range := 0x100, perms := identityFill }

/-- The table `perms` at the end of the shuffle (`i < 0x100` fails at `i = 0x100`). -/
def setupPerlinPerms (rand : Nat → Nat) : List Nat :=
  (shuffleLoop rand 0x100).perms

/-! ## Vectors and quaternions -/

/-- Modelled from the spec: the 3D vector type `Vec3<float32>` of the math library
(`math/math.h`, absent from the sources at hand): three components. -/
@[ext]
structure Vec3 (R : Type) where
  x : R
  y : R
  z : R
deriving Repr, DecidableEq

/-- Modelled from the spec: the quaternion type `quat` of the math library (absent
from the sources at hand): a vector part `x, y, z` and a scalar part `w`. -/
@[ext]
structure Quat (R : Type) where
  x : R
  y : R
  z : R
  w : R
deriving Repr, DecidableEq

namespace Vec3

variable {R : Type} [Field R]

/-- Modelled from the spec: `vec3::zero`. -/
def zero : Vec3 R := ⟨0, 0, 0⟩

/-- Modelled from the spec: `vec3::right`, the x axis. -/
def right : Vec3 R := ⟨1, 0, 0⟩

/-- Modelled from the spec: `vec3::up`, the y axis. -/
def up : Vec3 R := ⟨0, 1, 0⟩

/-- Modelled from the spec: `vec3::forward`, the z axis. -/
def forward : Vec3 R := ⟨0, 0, 1⟩

/-- Modelled from the spec: componentwise sum (`operator+`, `operator+=`). -/
def add (a b : Vec3 R) : Vec3 R := ⟨a.x + b.x, a.y + b.y, a.z + b.z⟩

/-- Modelled from the spec: componentwise difference (`operator-`). -/
def sub (a b : Vec3 R) : Vec3 R := ⟨a.x - b.x, a.y - b.y, a.z - b.z⟩

/-- Modelled from the spec: product of a vector by a scalar (`operator*`). -/
def scale (a : Vec3 R) (s : R) : Vec3 R := ⟨a.x * s, a.y * s, a.z * s⟩

/-- Modelled from the spec: dot product. -/
def dot (a b : Vec3 R) : R := a.x * b.x + a.y * b.y + a.z * b.z

/-- Modelled from the spec: cross product. -/
def cross (a b : Vec3 R) : Vec3 R :=
  ⟨a.y * b.z - a.z * b.y, a.z * b.x - a.x * b.z, a.x * b.y - a.y * b.x⟩

/-- Modelled from the spec: squared Euclidean length. -/
def squaredSize (a : Vec3 R) : R := dot a a

/-- Modelled from the spec: `normalize()`, "normalized to unit length": every
component is divided by the Euclidean length `sqrt (x² + y² + z²)`. -/
def normalize (sqrt : R → R) (a : Vec3 R) : Vec3 R :=
  let size := sqrt (squaredSize a)
  ⟨a.x / size, a.y / size, a.z / size⟩

end Vec3

namespace Quat

variable {R : Type} [Field R]

/-- Modelled from the spec: the constructor `quat(angle, axis)`, the rotation by
`angle` about `axis`: scalar part `cos (angle / 2)`, vector part
`sin (angle / 2) * axis`. The axis is used as given (it is not normalised). -/
def ofAngleAxis (cos sin : R → R) (angle : R) (axis : Vec3 R) : Quat R :=
  let a := angle / 2
  let s := sin a
  ⟨s * axis.x, s * axis.y, s * axis.z, cos a⟩

/-- Modelled from the spec: quaternion composition `p * q` (Hamilton product). -/
def mul (p q : Quat R) : Quat R :=
  ⟨p.w * q.x + p.x * q.w + p.y * q.z - p.z * q.y,
   p.w * q.y - p.x * q.z + p.y * q.w + p.z * q.x,
   p.w * q.z + p.x * q.y - p.y * q.x + p.z * q.w,
   p.w * q.w - p.x * q.x - p.y * q.y - p.z * q.z⟩

/-- Modelled from the spec: squared norm of a quaternion; `q` is a unit quaternion
when `normSq q = 1`. -/
def normSq (q : Quat R) : R := q.x * q.x + q.y * q.y + q.z * q.z + q.w * q.w

/-- Modelled from the spec: `q * v`, the "orientation-rotated" vector: the vector
part of `q v q*`, that is `2 (u·v) u + (w² - u·u) v + 2 w (u × v)` with `u` the
vector part of `q`. -/
def rotate (q : Quat R) (v : Vec3 R) : Vec3 R :=
  let u : Vec3 R := ⟨q.x, q.y, q.z⟩
  Vec3.add (Vec3.add (Vec3.scale u (2 * Vec3.dot u v))
    (Vec3.scale v (q.w * q.w - Vec3.dot u u)))
    (Vec3.scale (Vec3.cross u v) (2 * q.w))

/-- Modelled from the spec: `q.right()`, the rotated x axis. -/
def right (q : Quat R) : Vec3 R := rotate q Vec3.right

/-- Modelled from the spec: `q.up()`, the rotated y axis. -/
def up (q : Quat R) : Vec3 R := rotate q Vec3.up

/-- Modelled from the spec: `q.forward()`, the rotated z axis. -/
def forward (q : Quat R) : Vec3 R := rotate q Vec3.forward

end Quat

/-! ## Noise table: the gradients (main.cpp, `setupPerlin`) -/

section Gradients

variable {R : Type} [Field R]

/-- `const float32 freq = 2.f * M_PI / (float32)0x100`. -/
def freq (pi : R) : R := 2 * pi / 256

/-- The vector handed to `normalize()` for the entries `p = perms[i]` and
`pp = perms[perms[i]]`: `(cos(p * freq), cos(pp * freq), sin(p * freq))`. -/
def gradVector (cos sin : R → R) (pi : R) (p pp : Nat) : Vec3 R :=
  ⟨cos ((p : R) * freq pi), cos ((pp : R) * freq pi), sin ((p : R) * freq pi)⟩

/-- The body of the third loop, `grads[i] = Vec3(...).normalize()`. Both table
reads are checked: the result is `none` when `i` or `perms[i]` is not an index of
the table. -/
def gradAt (cos sin sqrt : R → R) (pi : R) (perms : List Nat) (i : Nat) : Option (Vec3 R) :=
  match perms[i]? with
  | none => none
  | some p =>
    match perms[p]? with
    | none => none
    | some pp => some (Vec3.normalize sqrt (gradVector cos sin pi p pp))

/-- The two tables built by `setupPerlin`: the shuffled permutation and the
gradients of the third loop (`i = 0, …, 0xff`). -/
def setupPerlin (cos sin sqrt : R → R) (pi : R) (rand : Nat → Nat) :
    List Nat × List (Option (Vec3 R)) :=
  let perms := setupPerlinPerms rand
  (perms, (List.range 0x100).map (gradAt cos sin sqrt pi perms))

end Gradients

/-! ## `ShaderProgram`: the uniform cache -/

/-- Modelled from the spec: the container `Map<String, uint32>` (absent from the
sources at hand), "a cache mapping uniform name (string) to resolved uniform slot
(integer)": an association list read by `find`, extended by `insert`. -/
abbrev UniformMap := List (String × Nat)

/-- Modelled from the spec: `Map::find`, the slot stored for `key`, if any. -/
def UniformMap.find (m : UniformMap) (key : String) : Option Nat := List.lookup key m

/-- Modelled from the spec: `Map::insert`, the map with `key` bound to `slot`. -/
def UniformMap.insert (m : UniformMap) (key : String) (slot : Nat) : UniformMap :=
  (key, slot) :: m

/-- The calls into the driver made by `setUniform`: the name-resolution query
`glGetUniformLocation(name, key)` and the value upload `glFun(slot, val)`. -/
inductive GLCall (V : Type) where
  | getUniformLocation (program : Nat) (key : String)
  | uniform (slot : Nat) (val : V)
deriving Repr, DecidableEq

/-- The members of `ShaderProgram`: the program name and the uniforms map. -/
structure ShaderProgram where
  name : Nat
  uniforms : UniformMap
deriving Repr, DecidableEq

/-- `ShaderProgram::setUniform_internal`. `glGetUniformLocation` is the answer of the driver to a query; the result is the program afterwards and the driver calls made,
in order. -/
def ShaderProgram.setUniform_internal {V : Type} (glGetUniformLocation : Nat → String → Nat)
    (self : ShaderProgram) (key : String) (val : V) : ShaderProgram × List (GLCall V) :=
  match self.uniforms.find key with
  | some slot => (self, [GLCall.uniform slot val])
  | none =>
    let slot := glGetUniformLocation self.name key
    ({ name := self.name, uniforms := self.uniforms.insert key slot },
      [GLCall.getUniformLocation self.name key, GLCall.uniform slot val])

/-- `ShaderProgram::setUniform<T>`: every specialisation forwards to
`setUniform_internal` with the upload function of its type. -/
def ShaderProgram.setUniform {V : Type} (glGetUniformLocation : Nat → String → Nat)
    (self : ShaderProgram) (key : String) (val : V) : ShaderProgram × List (GLCall V) :=
  self.setUniform_internal glGetUniformLocation key val

/-- A sequence of `setUniform` calls on one program, with the driver calls of all
of them concatenated in order. -/
def ShaderProgram.setUniforms {V : Type} (glGetUniformLocation : Nat → String → Nat) :
    ShaderProgram → List (String × V) → ShaderProgram × List (GLCall V)
  | self, [] => (self, [])
  | self, (key, val) :: rest =>
    let r := self.setUniform glGetUniformLocation key val
    let rs := setUniforms glGetUniformLocation r.1 rest
    (rs.1, r.2 ++ rs.2)

/-- Recognises the name-resolution query for `key`. -/
def GLCall.isQueryFor {V : Type} (key : String) : GLCall V → Bool
  | GLCall.getUniformLocation _ k => k == key
  | GLCall.uniform _ _ => false

/-- Recognises a value upload. -/
def GLCall.isUpload {V : Type} : GLCall V → Bool
  | GLCall.getUniformLocation _ _ => false
  | GLCall.uniform _ _ => true

/-! ## Start-up: reading, compiling and linking the two compute programs -/

/-- The members of `FileReader`. `fp` is the open stream (represented by the text
of the file), `none` when `fopen` returned null; `buffer` is the text read into
the allocated block, `none` when no block was allocated (the constructor leaves
the member unset on those paths, and `len` as well when the file is not opened;
`len` is then recorded as `0`). -/
structure FileReader where
  fp : Option String
  buffer : Option String
  len : Nat
deriving Repr, DecidableEq

/-- What the environment answers during start-up: `fopen` gives the text of a
file or fails, `memalign` tells whether `posix_memalign` succeeds for a size, and
the four status values are what `glGetShaderiv(…, GL_COMPILE_STATUS, …)` and
`glGetProgramiv(…, GL_LINK_STATUS, …)` store for the two shaders and programs
(`0` is `GL_FALSE`). -/
structure SetupEnv where
  fopen : String → Option String
  memalign : Nat → Bool
  drawCompileStatus : Nat
  drawLinkStatus : Nat
  genCompileStatus : Nat
  genLinkStatus : Nat

/-- The constructor `FileReader(filename)`: open, measure, allocate `len + 1`
bytes, terminate and read. -/
def FileReader.ofFilename (env : SetupEnv) (filename : String) : FileReader :=
  match env.fopen filename with
  | none => { fp := none, buffer := none, len := 0 }
  | some text =>
    if env.memalign (text.length + 1) then
      { fp := some text, buffer := some text, len := text.length }
    else
      { fp := some text, buffer := none, len := text.length }

/-- `FileReader::isValid`: `fp && buffer && len > 0`. -/
def FileReader.isValid (r : FileReader) : Bool :=
  r.fp.isSome && r.buffer.isSome && decide (r.len > 0)

/-- `FileReader::get<char>()`: the buffer, whatever its state. -/
def FileReader.get (r : FileReader) : Option String := r.buffer

/-- The observable steps of the program setup in `main`. -/
inductive SetupAction where
  | shaderSource (shader : String) (source : Option String)
  | compileShader (shader : String)
  | attachShader (program : String) (shader : String)
  | linkProgram (program : String)
  | useProgram (program : String)
  | printf (message : String)
  | setupPerlin
deriving Repr, DecidableEq

/-- The block that loads and compiles one shader and attaches it to its program:
read the file, hand the buffer to the driver, compile, attach, query
`GL_COMPILE_STATUS` and print when it is `GL_FALSE`. -/
def loadShader (env : SetupEnv) (filename shader program : String) (compileStatus : Nat) :
    List SetupAction :=
  let source := FileReader.ofFilename env filename
  let buffer := source.get
  [SetupAction.shaderSource shader buffer,
   SetupAction.compileShader shader,
   SetupAction.attachShader program shader] ++
  (if compileStatus = 0 then [SetupAction.printf "shader not compiled\n"] else [])

/-- `link(); bind(); if (getStatus() == 0) printf(message)`. -/
def linkAndBind (program message : String) (linkStatus : Nat) : List SetupAction :=
  [SetupAction.linkProgram program, SetupAction.useProgram program] ++
  (if linkStatus = 0 then [SetupAction.printf message] else [])

/-- The program setup of `main` up to the call of `setupPerlin`, as the list of
its observable steps. -/
def programSetup (env : SetupEnv) : List SetupAction :=
  loadShader env "src/light/shaders/volume/.comp" "drawShader" "drawProg" env.drawCompileStatus ++
  linkAndBind "drawProg" "draw program not linked correctly\n" env.drawLinkStatus ++
  loadShader env "src/light/shaders/generation/.comp" "cShader" "genProg" env.genCompileStatus ++
  linkAndBind "genProg" "generation program not linked correctly\n" env.genLinkStatus ++
  [SetupAction.setupPerlin]

/-- The environment in which no shader file can be opened while the driver reports
success for both compilations and both links. -/
def missingFilesEnv : SetupEnv :=
  { fopen := fun _ => none, memalign := fun _ => true,
    drawCompileStatus := 1, drawLinkStatus := 1, genCompileStatus := 1, genLinkStatus := 1 }

/-- The messages written to the diagnostic stream, in order. -/
def diagnostics : List SetupAction → List String
  | [] => []
  | SetupAction.printf m :: rest => m :: diagnostics rest
  | _ :: rest => diagnostics rest

/-! ## The event loop -/

/-- `SDLK_ESCAPE`. -/
def SDLK_ESCAPE : Nat := 27
/-- `SDLK_SPACE`. -/
def SDLK_SPACE : Nat := 32
/-- `SDLK_a`. -/
def SDLK_a : Nat := 97
/-- `SDLK_d`. -/
def SDLK_d : Nat := 100
/-- `SDLK_s`. -/
def SDLK_s : Nat := 115
/-- `SDLK_w`. -/
def SDLK_w : Nat := 119
/-- `SDLK_RIGHT`. -/
def SDLK_RIGHT : Nat := 0x4000004F
/-- `SDLK_LEFT`. -/
def SDLK_LEFT : Nat := 0x40000050
/-- `SDLK_DOWN`. -/
def SDLK_DOWN : Nat := 0x40000051
/-- `SDLK_UP`. -/
def SDLK_UP : Nat := 0x40000052
/-- `SDLK_LCTRL`. -/
def SDLK_LCTRL : Nat := 0x400000E0

/-- An event returned by `SDL_PollEvent`, by the cases of the `switch`:
`SDL_QUIT`, `SDL_KEYDOWN` and `SDL_KEYUP` with the key symbol, and any other type,
for which the `switch` has no case. -/
inductive SDLEvent where
  | quit
  | keyDown (sym : Nat)
  | keyUp (sym : Nat)
  | other (type : Nat)
deriving Repr, DecidableEq

/-- Modelled from the spec: the container `Map<uint32, float32>` behind `keys`
(absent from the sources at hand), "a mapping from key identifier to a float
activation": the activation read for each key, `0` for a key never written. -/
abbrev Keys (R : Type) := Nat → R

/-- Modelled from the spec: the assignment `keys[sym] = val`. -/
def Keys.set {R : Type} (keys : Keys R) (sym : Nat) (val : R) : Keys R :=
  fun k => if k = sym then val else keys k

/-- The variables the event loop writes: `bRunning` and `keys`. -/
structure LoopState (R : Type) where
  bRunning : Bool
  keys : Keys R

/-- The `switch (e.type)` of the polling loop. -/
def handleEvent {R : Type} [Zero R] [One R] (st : LoopState R) : SDLEvent → LoopState R
  | SDLEvent.quit => { bRunning := false, keys := st.keys }
  | SDLEvent.keyDown sym =>
    { bRunning := st.bRunning && (sym != SDLK_ESCAPE), keys := st.keys.set sym 1 }
  | SDLEvent.keyUp sym => { bRunning := st.bRunning, keys := st.keys.set sym 0 }
  | SDLEvent.other _ => st

/-- The loop `while (SDL_PollEvent(&e))` over the pending events, oldest first. -/
def pollEvents {R : Type} [Zero R] [One R] (st : LoopState R) (events : List SDLEvent) :
    LoopState R :=
  events.foldl handleEvent st

/-- What an event says about the key `sym`: `some true` for its key-down,
`some false` for its key-up, `none` for any other event. -/
def keyEventFor (sym : Nat) : SDLEvent → Option Bool
  | SDLEvent.keyDown s => if s = sym then some true else none
  | SDLEvent.keyUp s => if s = sym then some false else none
  | _ => none

/-- The last event of the sequence that concerns the key `sym`, if there is one. -/
def lastKeyEvent (events : List SDLEvent) (sym : Nat) : Option Bool :=
  (events.filterMap (keyEventFor sym)).getLast?

/-- The activation the specification gives a key: `1` if its last event was a
key-down, `0` if it was a key-up, the previous value `prev` without an event. -/
def expectedActivation {R : Type} [Zero R] [One R] (prev : R) : Option Bool → R
  | some true => 1
  | some false => 0
  | none => prev

/-- The stop events: `SDL_QUIT` and the key-down of the escape key. -/
def isStopEvent : SDLEvent → Bool
  | SDLEvent.quit => true
  | SDLEvent.keyDown sym => sym == SDLK_ESCAPE
  | _ => false

/-! ## The camera integrator -/

/-- The camera variables: `cameraLocation`, `cameraVelocity`, `cameraRotation`. -/
@[ext]
structure CameraState (R : Type) where
  cameraLocation : Vec3 R
  cameraVelocity : Vec3 R
  cameraRotation : Quat R
deriving Repr, DecidableEq

section Camera

variable {R : Type} [Field R]

/-- `const float32 cameraSpeed = 4.f`. -/
def cameraSpeed : R := 4

/-- `const float32 cameraBrake = 2.f`. -/
def cameraBrake : R := 2

/-- `cameraAcceleration`: the rotated input vector times `cameraSpeed`, minus
`cameraVelocity * cameraBrake`. -/
def cameraAcceleration (keys : Keys R) (st : CameraState R) : Vec3 R :=
  Vec3.sub
    (Vec3.scale
      (Quat.rotate st.cameraRotation
        ⟨keys SDLK_d - keys SDLK_a, keys SDLK_SPACE - keys SDLK_LCTRL, keys SDLK_w - keys SDLK_s⟩)
      cameraSpeed)
    (Vec3.scale st.cameraVelocity cameraBrake)

/-- The new `cameraRotation`: the three incremental rotations about `up()`,
`forward()` and `right()` of the current orientation, multiplied in front of it. -/
def rotationUpdate (cos sin : R → R) (dt : R) (keys : Keys R) (q : Quat R) : Quat R :=
  Quat.mul
    (Quat.mul
      (Quat.mul
        (Quat.ofAngleAxis cos sin ((keys SDLK_RIGHT - keys SDLK_LEFT) * dt) (Quat.up q))
        (Quat.ofAngleAxis cos sin ((keys SDLK_LEFT - keys SDLK_RIGHT) * dt) (Quat.forward q)))
      (Quat.ofAngleAxis cos sin ((keys SDLK_DOWN - keys SDLK_UP) * dt) (Quat.right q)))
    q

/-- One execution of the block "camera position and rotation" of the main loop. -/
def cameraStep (cos sin : R → R) (dt : R) (keys : Keys R) (st : CameraState R) :
    CameraState R :=
  let acceleration := cameraAcceleration keys st
  let velocity := Vec3.add st.cameraVelocity (Vec3.scale acceleration dt)
  let location := Vec3.add st.cameraLocation (Vec3.scale velocity dt)
  { cameraLocation := location,
    cameraVelocity := velocity,
    cameraRotation := rotationUpdate cos sin dt keys st.cameraRotation }

/-- The camera block executed once per frame, for a list of frames given by their
frame time and key activations, oldest first. -/
def cameraTicks (cos sin : R → R) (frames : List (R × Keys R)) (st : CameraState R) :
    CameraState R :=
  frames.foldl (fun s frame => cameraStep cos sin frame.1 frame.2 s) st

/-- The camera set-up of `main`: location `(0, 0, -5)`, zero velocity and the
orientation `quat(0.f, vec3::up)`. -/
def cameraSetup (cos sin : R → R) : CameraState R :=
  { cameraLocation := ⟨0, 0, -5⟩,
    cameraVelocity := Vec3.zero,
    cameraRotation := Quat.ofAngleAxis cos sin 0 Vec3.up }

/-- The speed along the forward direction of the camera. -/
def forwardSpeed (st : CameraState R) : R :=
  Vec3.dot st.cameraVelocity (Quat.forward st.cameraRotation)

/-- The key activations with only `W` held. -/
def keysForward : Keys R := fun k => if k = SDLK_w then 1 else 0

/-- The keys the camera block reads: six movement keys and four arrow keys. -/
def cameraKeys : List Nat :=
  [SDLK_d, SDLK_a, SDLK_SPACE, SDLK_LCTRL, SDLK_w, SDLK_s,
   SDLK_RIGHT, SDLK_LEFT, SDLK_DOWN, SDLK_UP]

/-- The key activations with only the right arrow held. -/
def keysTurnRight : Keys R := fun k => if k = SDLK_RIGHT then 1 else 0

/-- The key activations with no key held. -/
def keysNone : Keys R := fun _ => 0

end Camera


/-! ## Theorems: the shuffle -/

theorem swap_length (l : List Nat) (i k : Nat) : (swap l i k).length = l.length := by
  simp [swap]

theorem swap_perm (l : List Nat) (i k : Nat) (hi : i < l.length) (hk : k < l.length) :
    (swap l i k).Perm l := by
  rw [List.perm_iff_count]
  intro c
  unfold swap
  simp only [List.getD_eq_getElem l 0 hi, List.getD_eq_getElem l 0 hk]
  have hk2 : k < (l.set i l[k]).length := by simpa using hk
  rw [List.count_set _ _ _ _ hk2, List.count_set _ _ _ _ hi]
  have h1 : (l.set i l[k])[k] = l[k] := by
    rw [List.getElem_set]; split <;> rfl
  rw [h1]
  have hci : l[i] = c → 0 < l.count c := fun h => by
    rw [List.count_pos_iff]; exact h ▸ List.getElem_mem _
  have hck : l[k] = c → 0 < l.count c := fun h => by
    rw [List.count_pos_iff]; exact h ▸ List.getElem_mem _
  simp only [beq_iff_eq]
  split_ifs <;> simp_all

theorem swap_getD (l : List Nat) (i k j : Nat) (hi : i < l.length) (hk : k < l.length) :
    (swap l i k).getD j 0 =
      if j = k then l.getD i 0 else if j = i then l.getD k 0 else l.getD j 0 := by
  unfold swap
  simp only [List.getD_eq_getElem?_getD, List.getElem?_set, List.length_set]
  by_cases hjk : j = k
  · subst hjk; simp [hk]
  · by_cases hji : j = i
    · subst hji
      have : ¬ k = j := fun h => hjk h.symm
      simp [this, hjk, hi]
    · have h1 : ¬ k = j := fun h => hjk h.symm
      have h2 : ¬ i = j := fun h => hji h.symm
      simp [h1, h2, hjk, hji]

theorem identityFill_length : identityFill.length = 0x100 := List.length_range _

theorem shuffleLoop_zero (rand : Nat → Nat) :
    shuffleLoop rand 0 = { range := 0x100, perms := identityFill } := rfl

theorem shuffleLoop_succ (rand : Nat → Nat) (n : Nat) :
    shuffleLoop rand (n + 1) = shuffleStep rand (shuffleLoop rand n) n := by
  unfold shuffleLoop
  rw [List.range_succ, List.foldl_append]
  rfl

theorem shuffleLoop_range (rand : Nat → Nat) (n : Nat) :
    (shuffleLoop rand n).range = 0x100 - n := by
  induction n with
  | zero => rfl
  | succ n ih => rw [shuffleLoop_succ]; simp only [shuffleStep, ih]; omega

theorem shuffleLoop_length (rand : Nat → Nat) (n : Nat) :
    (shuffleLoop rand n).perms.length = 0x100 := by
  induction n with
  | zero => simp only [shuffleLoop_zero, identityFill_length]
  | succ n ih => rw [shuffleLoop_succ]; simp only [shuffleStep, swap_length, ih]

theorem shuffle_index_bounds (rand : Nat → Nat) (i : Nat) (hi : i < 0x100) :
    i ≤ rand i % (shuffleLoop rand i).range + i ∧
      rand i % (shuffleLoop rand i).range + i < 0x100 := by
  rw [shuffleLoop_range]
  have : rand i % (0x100 - i) < 0x100 - i := Nat.mod_lt _ (by omega)
  omega

theorem shuffleLoop_perm (rand : Nat → Nat) (n : Nat) (hn : n ≤ 0x100) :
    (shuffleLoop rand n).perms.Perm identityFill := by
  induction n with
  | zero => rw [shuffleLoop_zero]
  | succ n ih =>
    rw [shuffleLoop_succ]
    have hb := shuffle_index_bounds rand n (by omega)
    have hlen := shuffleLoop_length rand n
    refine List.Perm.trans ?_ (ih (by omega))
    simp only [shuffleStep]
    apply swap_perm
    · omega
    · rw [hlen]; exact Nat.mod_lt _ (by norm_num)

theorem shuffleLoop_congr (r1 r2 : Nat → Nat) (n : Nat) (h : ∀ i, i < n → r1 i = r2 i) :
    shuffleLoop r1 n = shuffleLoop r2 n := by
  induction n with
  | zero => rfl
  | succ n ih =>
    rw [shuffleLoop_succ, shuffleLoop_succ, ih (fun i hi => h i (by omega))]
    simp only [shuffleStep, h n (by omega)]


theorem identityFill_nodup : identityFill.Nodup := List.nodup_range _

theorem mem_identityFill (v : Nat) : v ∈ identityFill ↔ v < 0x100 := List.mem_range

theorem reach_initial_segment (p : List Nat) (hp : p.Perm identityFill) (m : Nat) (hm : m ≤ 0x100) :
    ∃ rand : Nat → Nat, (∀ n, rand n < 0x100) ∧
      ∀ j, j < m → (shuffleLoop rand m).perms.getD j 0 = p.getD j 0 := by
  induction m with
  | zero => exact ⟨fun _ => 0, fun _ => by norm_num, fun j hj => absurd hj (Nat.not_lt_zero j)⟩
  | succ m ih =>
    obtain ⟨rand, hsmall, hr⟩ := ih (by omega)
    have hlen := shuffleLoop_length rand m
    have hplen : p.length = 0x100 := by rw [hp.length_eq, identityFill_length]
    have hsp : (shuffleLoop rand m).perms.Perm p :=
      (shuffleLoop_perm rand m (by omega)).trans hp.symm
    have hpnd : p.Nodup := hp.nodup_iff.mpr identityFill_nodup
    have hmp : m < p.length := by omega
    have hx : p[m] ∈ (shuffleLoop rand m).perms := hsp.mem_iff.mpr (List.getElem_mem _)
    obtain ⟨idx, hidx, hval⟩ := List.getElem_of_mem hx
    have hge : m ≤ idx := by
      by_contra hlt
      have hlt2 : idx < m := by omega
      have h1 := hr idx hlt2
      rw [List.getD_eq_getElem _ 0 hidx, List.getD_eq_getElem _ 0 (by omega : idx < p.length),
        hval] at h1
      have := (hpnd.getElem_inj_iff).mp h1
      omega
    refine ⟨Function.update rand m (idx - m), fun n => ?_, ?_⟩
    · by_cases hn : n = m
      · rw [hn, Function.update_same]; omega
      · rw [Function.update_noteq hn]; exact hsmall n
    have hcongr : shuffleLoop (Function.update rand m (idx - m)) m = shuffleLoop rand m :=
      shuffleLoop_congr _ _ m (fun i hi => Function.update_noteq (by omega) _ _)
    intro j hj
    rw [shuffleLoop_succ, hcongr]
    simp only [shuffleStep, Function.update_same, shuffleLoop_range]
    have hk : ((idx - m) % (0x100 - m) + m) % 256 = idx := by
      rw [Nat.mod_eq_of_lt (by omega : idx - m < 0x100 - m)]
      rw [Nat.mod_eq_of_lt (by omega)]
      omega
    rw [hk, swap_getD _ _ _ _ (by omega) hidx]
    have hv : (shuffleLoop rand m).perms.getD idx 0 = p.getD m 0 := by
      rw [List.getD_eq_getElem _ 0 hidx, List.getD_eq_getElem _ 0 hmp, hval]
    by_cases hjm : j = m
    · rw [hjm]
      by_cases h1 : m = idx
      · rw [if_pos h1]
        exact (congrArg (fun t => (shuffleLoop rand m).perms.getD t 0) h1).trans hv
      · rw [if_neg h1, if_pos rfl]
        exact hv
    · have h1 : ¬ j = idx := by omega
      rw [if_neg h1, if_neg hjm]
      exact hr j (by omega)

theorem shuffle_reaches_identityFill (p : List Nat) (hp : p.Perm identityFill) :
    ∃ rand : Nat → Nat, (∀ n, rand n < 0x100) ∧ setupPerlinPerms rand = p := by
  obtain ⟨rand, hsmall, hr⟩ := reach_initial_segment p hp 0x100 (Nat.le_refl _)
  refine ⟨rand, hsmall, ?_⟩
  have hlen := shuffleLoop_length rand 0x100
  have hplen : p.length = 0x100 := by rw [hp.length_eq, identityFill_length]
  unfold setupPerlinPerms
  apply List.ext_getElem (by rw [hlen, hplen])
  intro n h1 h2
  have := hr n (by omega)
  rwa [List.getD_eq_getElem _ 0 h1, List.getD_eq_getElem _ 0 h2] at this


/-- C1. Whatever non-negative values the successive `rand()` calls return, the table
`perms` left by the identity fill and the 256 swaps holds every integer 0..255 exactly
once: it has 256 entries, it is a rearrangement of `0, …, 255`, no value repeats, and
a value occurs once if it is below 256 and not at all otherwise. -/
theorem setupPerlin_perms_bijection (rand : Nat → Nat) (v : Nat) :
    (setupPerlinPerms rand).length = 0x100 ∧
    (setupPerlinPerms rand).Perm (List.range 0x100) ∧
    (setupPerlinPerms rand).Nodup ∧
    (setupPerlinPerms rand).count v = (if v < 0x100 then 1 else 0) ∧
    (setupPerlin Real.cos Real.sin Real.sqrt Real.pi rand).1 = setupPerlinPerms rand := by
  have hperm : (setupPerlinPerms rand).Perm identityFill :=
    shuffleLoop_perm rand 0x100 (Nat.le_refl _)
  refine ⟨shuffleLoop_length rand 0x100, hperm, hperm.nodup_iff.mpr identityFill_nodup, ?_,
    by simp only [setupPerlin]⟩
  rw [hperm.count_eq]
  split_ifs with hv
  · exact List.count_eq_one_of_mem identityFill_nodup ((mem_identityFill v).mpr hv)
  · exact List.count_eq_zero_of_not_mem (fun hmem => hv ((mem_identityFill v).mp hmem))

/-- C6. Every permutation `p` of `[0, 256)` is the table left by the shuffle for some
sequence of `rand()` results (all of them below 256, hence within `RAND_MAX`); and in every iteration `i` the loop variable `range` is
`256 - i` and the index `rand() % range + i` lies in `[i, 256)`, so storing it in a
`uint8` does not change it. -/
theorem shuffle_reaches_every_permutation (p : List Nat) (rand : Nat → Nat) (i : Nat)
    (hp : p.Perm (List.range 0x100)) (hi : i < 0x100) :
    (∃ r : Nat → Nat, (∀ n, r n < 0x100) ∧ setupPerlinPerms r = p) ∧
    (shuffleLoop rand i).range = 0x100 - i ∧
    i ≤ rand i % (shuffleLoop rand i).range + i ∧
    rand i % (shuffleLoop rand i).range + i < 0x100 ∧
    (rand i % (shuffleLoop rand i).range + i) % 256 = rand i % (shuffleLoop rand i).range + i := by
  obtain ⟨h1, h2⟩ := shuffle_index_bounds rand i hi
  exact ⟨shuffle_reaches_identityFill p hp, shuffleLoop_range rand i, h1, h2,
    Nat.mod_eq_of_lt h2⟩

theorem shuffle_reaches_every_permutation_witness :
    (List.range 0x100).Perm (List.range 0x100) ∧ 5 < 0x100 ∧
    ((∃ r : Nat → Nat, (∀ n, r n < 0x100) ∧ setupPerlinPerms r = List.range 0x100) ∧
    (shuffleLoop (fun n => 7 * n + 1000) 5).range = 0x100 - 5 ∧
    5 ≤ (fun n => 7 * n + 1000) 5 % (shuffleLoop (fun n => 7 * n + 1000) 5).range + 5 ∧
    (fun n => 7 * n + 1000) 5 % (shuffleLoop (fun n => 7 * n + 1000) 5).range + 5 < 0x100 ∧
    ((fun n => 7 * n + 1000) 5 % (shuffleLoop (fun n => 7 * n + 1000) 5).range + 5) % 256 =
      (fun n => 7 * n + 1000) 5 % (shuffleLoop (fun n => 7 * n + 1000) 5).range + 5) :=
  ⟨List.Perm.refl _, by norm_num,
    shuffle_reaches_every_permutation (List.range 0x100) (fun n => 7 * n + 1000) 5
      (List.Perm.refl _) (by norm_num)⟩

/-! ## Theorems: `Compare` -/

/-- C10. For operands of a linearly ordered type (`operator<` and `operator>` are the
two directions of one strict total order), `Compare()(a, b)` is `1` if `a > b`, `-1`
if `a < b` and `0` otherwise; so it lies in `{-1, 0, 1}`, it is `0` exactly when
`a = b`, and `Compare()(a, b) = -Compare()(b, a)`. -/
theorem Compare_spec {A : Type} [LinearOrder A] (a b : A) :
    Compare a b = (if a > b then 1 else if a < b then -1 else 0) ∧
    (Compare a b = -1 ∨ Compare a b = 0 ∨ Compare a b = 1) ∧
    (Compare a b = 0 ↔ a = b) ∧
    Compare a b = -Compare b a := by
  unfold Compare int32OfBool
  rcases lt_trichotomy a b with h | h | h
  · have h2 : ¬ b < a := not_lt.mpr h.le
    have h3 : a ≠ b := ne_of_lt h
    simp [h, h2, h3]
  · subst h
    simp
  · have h2 : ¬ a < b := not_lt.mpr h.le
    have h3 : a ≠ b := ne_of_gt h
    simp [h, h2, h3]

/-! ## Theorems: the uniform cache -/

theorem setUniforms_cons {V : Type} (loc : Nat → String → Nat) (sp : ShaderProgram)
    (key : String) (val : V) (rest : List (String × V)) :
    sp.setUniforms loc ((key, val) :: rest) =
      (((sp.setUniform loc key val).1.setUniforms loc rest).1,
        (sp.setUniform loc key val).2 ++ ((sp.setUniform loc key val).1.setUniforms loc rest).2) :=
  rfl

theorem setUniform_uploads {V : Type} (loc : Nat → String → Nat) (sp : ShaderProgram)
    (key : String) (val : V) :
    ((sp.setUniform loc key val).2.countP GLCall.isUpload) = 1 := by
  unfold ShaderProgram.setUniform ShaderProgram.setUniform_internal
  cases sp.uniforms.find key <;> simp [GLCall.isUpload, List.countP_cons]

/-- A call of `setUniform` for `key` leaves every cached name cached, caches `key`,
queries a name only if it is `key` and was not cached, and then only once. -/
theorem setUniform_queries {V : Type} (loc : Nat → String → Nat) (sp : ShaderProgram)
    (key : String) (val : V) (name : String) :
    ((sp.uniforms.find name).isSome → ((sp.setUniform loc key val).1.uniforms.find name).isSome) ∧
    ((sp.setUniform loc key val).1.uniforms.find key).isSome ∧
    ((sp.uniforms.find name).isSome →
      (sp.setUniform loc key val).2.countP (GLCall.isQueryFor name) = 0) ∧
    (sp.setUniform loc key val).2.countP (GLCall.isQueryFor name) ≤ 1 ∧
    (name ≠ key → (sp.setUniform loc key val).2.countP (GLCall.isQueryFor name) = 0) := by
  unfold ShaderProgram.setUniform ShaderProgram.setUniform_internal
  cases hf : sp.uniforms.find key with
  | some slot =>
    simp [GLCall.isQueryFor, List.countP_cons, hf]
  | none =>
    simp only [UniformMap.find, UniformMap.insert, List.lookup_cons, GLCall.isQueryFor,
      List.countP_cons, List.countP_nil, beq_self_eq_true, Option.isSome_some, true_and]
    simp only [UniformMap.find] at hf
    by_cases hk : name = key
    · subst hk
      simp [hf]
    · have hb : (name == key) = false := beq_false_of_ne hk
      have hb2 : (key == name) = false := beq_false_of_ne (fun h => hk h.symm)
      simp only [hb, hb2]
      simp

theorem setUniforms_queries {V : Type} (loc : Nat → String → Nat)
    (calls : List (String × V)) (sp : ShaderProgram) (name : String) :
    ((sp.uniforms.find name).isSome → ((sp.setUniforms loc calls).1.uniforms.find name).isSome) ∧
    ((sp.uniforms.find name).isSome →
      (sp.setUniforms loc calls).2.countP (GLCall.isQueryFor name) = 0) ∧
    (sp.setUniforms loc calls).2.countP (GLCall.isQueryFor name) ≤ 1 := by
  induction calls generalizing sp with
  | nil => simp [ShaderProgram.setUniforms]
  | cons c rest ih =>
    obtain ⟨key, val⟩ := c
    rw [setUniforms_cons]
    obtain ⟨h1, h2, h3, h4, h5⟩ := setUniform_queries loc sp key val name
    obtain ⟨i1, i2, i3⟩ := ih (sp.setUniform loc key val).1
    simp only [List.countP_append]
    refine ⟨fun h => i1 (h1 h), fun h => ?_, ?_⟩
    · rw [h3 h, i2 (h1 h)]
    · by_cases hk : name = key
      · subst hk
        rw [i2 h2]
        omega
      · rw [h5 hk]
        omega

theorem setUniforms_uploads {V : Type} (loc : Nat → String → Nat)
    (calls : List (String × V)) (sp : ShaderProgram) :
    (sp.setUniforms loc calls).2.countP GLCall.isUpload = calls.length := by
  induction calls generalizing sp with
  | nil => simp [ShaderProgram.setUniforms]
  | cons c rest ih =>
    obtain ⟨key, val⟩ := c
    rw [setUniforms_cons]
    simp only [List.countP_append, setUniform_uploads, ih, List.length_cons]
    omega

/-- C2. On a program whose uniform cache is empty, two consecutive `setUniform` calls
with one name make exactly these driver calls, in this order: one
`glGetUniformLocation` query, then two uploads, both to the slot the query returned.
Over any sequence of `setUniform` calls, from any state of the cache, each name is
queried at most once and there are exactly as many uploads as calls. -/
theorem setUniform_cache {V : Type} (loc : Nat → String → Nat) (name : Nat) (key : String)
    (v1 v2 : V) (sp : ShaderProgram) (calls : List (String × V)) (k : String) :
    (ShaderProgram.mk name []).setUniforms loc [(key, v1), (key, v2)] =
      ({ name := name, uniforms := [(key, loc name key)] },
       [GLCall.getUniformLocation name key, GLCall.uniform (loc name key) v1,
        GLCall.uniform (loc name key) v2]) ∧
    (sp.setUniforms loc calls).2.countP (GLCall.isQueryFor k) ≤ 1 ∧
    (sp.setUniforms loc calls).2.countP GLCall.isUpload = calls.length := by
  refine ⟨?_, (setUniforms_queries loc calls sp k).2.2, setUniforms_uploads loc calls sp⟩
  simp [ShaderProgram.setUniforms, ShaderProgram.setUniform, ShaderProgram.setUniform_internal,
    UniformMap.find, UniformMap.insert, List.lookup]


/-! ## Theorems: the event loop -/

theorem pollEvents_cons {R : Type} [Zero R] [One R] (st : LoopState R) (e : SDLEvent)
    (es : List SDLEvent) : pollEvents st (e :: es) = pollEvents (handleEvent st e) es := rfl

theorem pollEvents_append {R : Type} [Zero R] [One R] (st : LoopState R)
    (es more : List SDLEvent) : pollEvents st (es ++ more) = pollEvents (pollEvents st es) more := by
  simp [pollEvents, List.foldl_append]

theorem lastKeyEvent_cons (e : SDLEvent) (es : List SDLEvent) (sym : Nat) :
    lastKeyEvent (e :: es) sym =
      match lastKeyEvent es sym with
      | some b => some b
      | none => keyEventFor sym e := by
  unfold lastKeyEvent
  cases h : keyEventFor sym e with
  | none => rw [List.filterMap_cons_none h]; cases (List.filterMap (keyEventFor sym) es).getLast? <;> rfl
  | some b =>
    rw [List.filterMap_cons_some h, List.getLast?_cons]
    cases (List.filterMap (keyEventFor sym) es).getLast? <;> rfl

theorem pollEvents_bRunning {R : Type} [Zero R] [One R] (es : List SDLEvent) (st : LoopState R) :
    (pollEvents st es).bRunning = (st.bRunning && es.all (fun e => !isStopEvent e)) := by
  induction es generalizing st with
  | nil => simp [pollEvents]
  | cons e es ih =>
    rw [pollEvents_cons, ih, List.all_cons]
    cases e <;> simp [handleEvent, isStopEvent, Bool.and_assoc, bne]

theorem pollEvents_keys {R : Type} [Zero R] [One R] (es : List SDLEvent) (st : LoopState R)
    (sym : Nat) :
    (pollEvents st es).keys sym = expectedActivation (st.keys sym) (lastKeyEvent es sym) := by
  induction es generalizing st with
  | nil => simp [pollEvents, lastKeyEvent, expectedActivation]
  | cons e es ih =>
    rw [pollEvents_cons, ih, lastKeyEvent_cons]
    cases hl : lastKeyEvent es sym with
    | some b => cases b <;> rfl
    | none =>
      cases e with
      | quit => rfl
      | other t => rfl
      | keyDown s =>
        by_cases hs : s = sym
        · simp [handleEvent, keyEventFor, expectedActivation, Keys.set, hs]
        · have hs2 : ¬ sym = s := fun h => hs h.symm
          simp [handleEvent, keyEventFor, expectedActivation, Keys.set, hs, hs2]
      | keyUp s =>
        by_cases hs : s = sym
        · simp [handleEvent, keyEventFor, expectedActivation, Keys.set, hs]
        · have hs2 : ¬ sym = s := fun h => hs h.symm
          simp [handleEvent, keyEventFor, expectedActivation, Keys.set, hs, hs2]

/-- C9. Starting the polling loop with `bRunning` true, after any finite sequence of
events `bRunning` is false if and only if the sequence contains a quit event or a
key-down of the escape key; once false it stays false whatever events follow; and
every key reads `1` if its last event was a key-down, `0` if it was a key-up, and its
previous value if the sequence has no event for it. -/
theorem pollEvents_spec {R : Type} [Zero R] [One R] (keys : Keys R)
    (events more : List SDLEvent) (sym : Nat) :
    ((pollEvents { bRunning := true, keys := keys } events).bRunning = false ↔
      ∃ e ∈ events, e = SDLEvent.quit ∨ e = SDLEvent.keyDown SDLK_ESCAPE) ∧
    ((pollEvents { bRunning := true, keys := keys } events).bRunning = false →
      (pollEvents { bRunning := true, keys := keys } (events ++ more)).bRunning = false) ∧
    (pollEvents { bRunning := true, keys := keys } events).keys sym =
      expectedActivation (keys sym) (lastKeyEvent events sym) := by
  refine ⟨?_, ?_, pollEvents_keys events _ sym⟩
  · rw [pollEvents_bRunning]
    simp only [Bool.true_and, List.all_eq_false]
    constructor
    · rintro ⟨e, he, hstop⟩
      refine ⟨e, he, ?_⟩
      cases e <;> simp_all [isStopEvent]
    · rintro ⟨e, he, h | h⟩ <;> exact ⟨e, he, by simp [h, isStopEvent]⟩
  · intro h
    rw [pollEvents_append, pollEvents_bRunning, h]
    rfl

/-! ## Theorems: start-up -/

theorem diagnostics_append (xs ys : List SetupAction) :
    diagnostics (xs ++ ys) = diagnostics xs ++ diagnostics ys := by
  induction xs with
  | nil => rfl
  | cons a xs ih => cases a <;> simp [diagnostics, ih]

/-- The diagnostics of the setup are decided by the four status values alone: one
message per status that is `GL_FALSE`, none for the outcome of reading a file. -/
theorem diagnostics_programSetup (env : SetupEnv) :
    diagnostics (programSetup env) =
      (if env.drawCompileStatus = 0 then ["shader not compiled\n"] else []) ++
      (if env.drawLinkStatus = 0 then ["draw program not linked correctly\n"] else []) ++
      (if env.genCompileStatus = 0 then ["shader not compiled\n"] else []) ++
      (if env.genLinkStatus = 0 then ["generation program not linked correctly\n"] else []) := by
  unfold programSetup loadShader linkAndBind
  simp only [diagnostics_append]
  split_ifs <;> simp [diagnostics]

/-- The setup never stops early: whatever fails, its last step is the call of
`setupPerlin` that follows the set-up of the two programs. -/
theorem programSetup_continues (env : SetupEnv) :
    (programSetup env).getLast? = some SetupAction.setupPerlin := by
  unfold programSetup
  simp

/-- C8 (the file-open failure is neither checked nor reported). When no shader file
can be opened, both `FileReader` objects are invalid, yet the setup never consults
`isValid`: it hands the unset buffer to the driver and writes no diagnostic at all,
while a compile or link status of `GL_FALSE` in the same run is reported. -/
theorem programSetup_file_failure_silent :
    (FileReader.ofFilename missingFilesEnv "src/light/shaders/volume/.comp").isValid = false ∧
    (FileReader.ofFilename missingFilesEnv "src/light/shaders/generation/.comp").isValid = false ∧
    diagnostics (programSetup missingFilesEnv) = [] ∧
    SetupAction.shaderSource "drawShader" none ∈ programSetup missingFilesEnv ∧
    diagnostics (programSetup { missingFilesEnv with drawCompileStatus := 0, genLinkStatus := 0 }) =
      ["shader not compiled\n", "generation program not linked correctly\n"] := by
  refine ⟨rfl, rfl, ?_, ?_, ?_⟩
  · rw [diagnostics_programSetup]; rfl
  · simp [programSetup, loadShader, FileReader.ofFilename, FileReader.get, missingFilesEnv]
  · rw [diagnostics_programSetup]; rfl


/-! ## Theorems: quaternions -/

section QuatLemmas

variable {R : Type} [Field R]

theorem quat_normSq_mul (p q : Quat R) :
    Quat.normSq (Quat.mul p q) = Quat.normSq p * Quat.normSq q := by
  simp only [Quat.normSq, Quat.mul]
  ring

theorem quat_squaredSize_rotate (q : Quat R) (v : Vec3 R) :
    Vec3.squaredSize (Quat.rotate q v) = Quat.normSq q * Quat.normSq q * Vec3.squaredSize v := by
  simp only [Quat.normSq, Quat.rotate, Vec3.squaredSize, Vec3.dot, Vec3.add, Vec3.scale,
    Vec3.cross]
  ring

theorem quat_normSq_ofAngleAxis (cos sin : R → R) (angle : R) (axis : Vec3 R) :
    Quat.normSq (Quat.ofAngleAxis cos sin angle axis) =
      sin (angle / 2) * sin (angle / 2) * Vec3.squaredSize axis +
        cos (angle / 2) * cos (angle / 2) := by
  simp only [Quat.normSq, Quat.ofAngleAxis, Vec3.squaredSize, Vec3.dot]
  ring

theorem quat_rotate_zero (q : Quat R) : Quat.rotate q ⟨0, 0, 0⟩ = ⟨0, 0, 0⟩ := by
  simp [Quat.rotate, Vec3.add, Vec3.scale, Vec3.cross, Vec3.dot]

theorem quat_one_mul (q : Quat R) : Quat.mul ⟨0, 0, 0, 1⟩ q = q := by
  simp [Quat.mul]

theorem cameraTicks_snoc (cos sin : R → R) (frames : List (R × Keys R)) (frame : R × Keys R)
    (st : CameraState R) :
    cameraTicks cos sin (frames ++ [frame]) st =
      cameraStep cos sin frame.1 frame.2 (cameraTicks cos sin frames st) := by
  simp [cameraTicks, List.foldl_append]

end QuatLemmas

theorem quat_ofAngleAxis_zero (axis : Vec3 ℝ) :
    Quat.ofAngleAxis Real.cos Real.sin 0 axis = ⟨0, 0, 0, 1⟩ := by
  simp [Quat.ofAngleAxis]

theorem quat_normSq_ofAngleAxis_unit (angle : ℝ) (axis : Vec3 ℝ)
    (h : Vec3.squaredSize axis = 1) :
    Quat.normSq (Quat.ofAngleAxis Real.cos Real.sin angle axis) = 1 := by
  rw [quat_normSq_ofAngleAxis, h]
  have := Real.sin_sq_add_cos_sq (angle / 2)
  nlinarith [this]

theorem quat_squaredSize_axis (q : Quat ℝ) (h : Quat.normSq q = 1) :
    Vec3.squaredSize (Quat.up q) = 1 ∧ Vec3.squaredSize (Quat.forward q) = 1 ∧
      Vec3.squaredSize (Quat.right q) = 1 := by
  simp only [Quat.up, Quat.forward, Quat.right, quat_squaredSize_rotate, h]
  simp [Vec3.squaredSize, Vec3.dot, Vec3.up, Vec3.forward, Vec3.right]

theorem rotationUpdate_unit (dt : ℝ) (keys : Keys ℝ) (q : Quat ℝ) (h : Quat.normSq q = 1) :
    Quat.normSq (rotationUpdate Real.cos Real.sin dt keys q) = 1 := by
  obtain ⟨hu, hf, hr⟩ := quat_squaredSize_axis q h
  simp only [rotationUpdate, quat_normSq_mul, quat_normSq_ofAngleAxis_unit _ _ hu,
    quat_normSq_ofAngleAxis_unit _ _ hf, quat_normSq_ofAngleAxis_unit _ _ hr, h, mul_one]

theorem rotationUpdate_rest (dt : ℝ) (keys : Keys ℝ) (q : Quat ℝ)
    (hR : keys SDLK_RIGHT = 0) (hL : keys SDLK_LEFT = 0) (hD : keys SDLK_DOWN = 0)
    (hU : keys SDLK_UP = 0) :
    rotationUpdate Real.cos Real.sin dt keys q = q := by
  simp only [rotationUpdate, hR, hL, hD, hU, sub_zero, zero_mul, quat_ofAngleAxis_zero,
    quat_one_mul]

theorem cameraTicks_unit (frames : List (ℝ × Keys ℝ)) (st : CameraState ℝ)
    (h : Quat.normSq st.cameraRotation = 1) :
    Quat.normSq (cameraTicks Real.cos Real.sin frames st).cameraRotation = 1 := by
  induction frames generalizing st with
  | nil => exact h
  | cons f fs ih =>
    exact ih _ (rotationUpdate_unit f.1 f.2 st.cameraRotation h)

/-- C3. Camera step at rest, over real arithmetic: for every frame time, every camera
position and every orientation (unit or not), if the ten keys read by the camera
block have activation 0 and the velocity is zero, one execution of the block leaves
location, velocity and orientation as they were. -/
theorem cameraStep_rest (dt : ℝ) (keys : Keys ℝ) (st : CameraState ℝ)
    (hkeys : ∀ k ∈ cameraKeys, keys k = 0) (hvel : st.cameraVelocity = Vec3.zero) :
    cameraStep Real.cos Real.sin dt keys st = st := by
  have hk : ∀ k, k ∈ cameraKeys → keys k = 0 := hkeys
  simp only [cameraKeys, List.mem_cons, List.mem_singleton] at hk
  have hd := hk SDLK_d (by simp)
  have ha := hk SDLK_a (by simp)
  have hsp := hk SDLK_SPACE (by simp)
  have hct := hk SDLK_LCTRL (by simp)
  have hw := hk SDLK_w (by simp)
  have hs := hk SDLK_s (by simp)
  have hrot := rotationUpdate_rest dt keys st.cameraRotation (hk SDLK_RIGHT (by simp))
    (hk SDLK_LEFT (by simp)) (hk SDLK_DOWN (by simp)) (hk SDLK_UP (by simp))
  have hacc : cameraAcceleration keys st = ⟨0, 0, 0⟩ := by
    simp only [cameraAcceleration, hd, ha, hsp, hct, hw, hs, sub_zero, quat_rotate_zero, hvel,
      Vec3.zero]
    simp [Vec3.scale, Vec3.sub]
  ext <;> simp [cameraStep, hacc, hrot, hvel, Vec3.add, Vec3.scale, Vec3.zero]

theorem cameraStep_rest_witness :
    (∀ k ∈ cameraKeys, (keysNone : Keys ℝ) k = 0) ∧
    (cameraSetup Real.cos Real.sin).cameraVelocity = Vec3.zero ∧
    cameraStep Real.cos Real.sin (1 / 60) keysNone (cameraSetup Real.cos Real.sin) =
      cameraSetup Real.cos Real.sin :=
  ⟨fun _ _ => rfl, rfl,
    cameraStep_rest (1 / 60) keysNone (cameraSetup Real.cos Real.sin) (fun _ _ => rfl) rfl⟩

/-- C4. Orientation norm invariant, over real arithmetic: if `cameraRotation` is a unit
quaternion, then for every frame time and all key activations each of the three
incremental rotations about `up()`, `forward()` and `right()` is unit, the
orientation after the update is unit, and so is the orientation after any number of
frames; the orientation `quat(0, up)` of the camera set-up is unit, hence so is every
orientation reached from it. -/
theorem cameraRotation_unit (dt : ℝ) (keys : Keys ℝ) (st : CameraState ℝ)
    (frames : List (ℝ × Keys ℝ)) (h : Quat.normSq st.cameraRotation = 1) :
    Quat.normSq (Quat.ofAngleAxis Real.cos Real.sin ((keys SDLK_RIGHT - keys SDLK_LEFT) * dt)
      (Quat.up st.cameraRotation)) = 1 ∧
    Quat.normSq (Quat.ofAngleAxis Real.cos Real.sin ((keys SDLK_LEFT - keys SDLK_RIGHT) * dt)
      (Quat.forward st.cameraRotation)) = 1 ∧
    Quat.normSq (Quat.ofAngleAxis Real.cos Real.sin ((keys SDLK_DOWN - keys SDLK_UP) * dt)
      (Quat.right st.cameraRotation)) = 1 ∧
    Quat.normSq (cameraStep Real.cos Real.sin dt keys st).cameraRotation = 1 ∧
    Quat.normSq (cameraTicks Real.cos Real.sin frames st).cameraRotation = 1 ∧
    Quat.normSq (cameraSetup Real.cos Real.sin).cameraRotation = 1 ∧
    Quat.normSq (cameraTicks Real.cos Real.sin frames
      (cameraSetup Real.cos Real.sin)).cameraRotation = 1 := by
  obtain ⟨hu, hf, hr⟩ := quat_squaredSize_axis st.cameraRotation h
  have h0 : Quat.normSq (cameraSetup Real.cos Real.sin).cameraRotation = 1 := by
    simp [cameraSetup, quat_ofAngleAxis_zero, Quat.normSq]
  exact ⟨quat_normSq_ofAngleAxis_unit _ _ hu, quat_normSq_ofAngleAxis_unit _ _ hf,
    quat_normSq_ofAngleAxis_unit _ _ hr, rotationUpdate_unit dt keys _ h,
    cameraTicks_unit frames st h, h0, cameraTicks_unit frames _ h0⟩


theorem cameraRotation_unit_witness :
    Quat.normSq (cameraSetup Real.cos Real.sin).cameraRotation = 1 ∧
    (Quat.normSq (Quat.ofAngleAxis Real.cos Real.sin (((keysTurnRight : Keys ℝ) SDLK_RIGHT - keysTurnRight SDLK_LEFT) * (1 / 60))
      (Quat.up (cameraSetup Real.cos Real.sin).cameraRotation)) = 1 ∧
    Quat.normSq (Quat.ofAngleAxis Real.cos Real.sin (((keysTurnRight : Keys ℝ) SDLK_LEFT - keysTurnRight SDLK_RIGHT) * (1 / 60))
      (Quat.forward (cameraSetup Real.cos Real.sin).cameraRotation)) = 1 ∧
    Quat.normSq (Quat.ofAngleAxis Real.cos Real.sin (((keysTurnRight : Keys ℝ) SDLK_DOWN - keysTurnRight SDLK_UP) * (1 / 60))
      (Quat.right (cameraSetup Real.cos Real.sin).cameraRotation)) = 1 ∧
    Quat.normSq (cameraStep Real.cos Real.sin (1 / 60) keysTurnRight (cameraSetup Real.cos Real.sin)).cameraRotation = 1 ∧
    Quat.normSq (cameraTicks Real.cos Real.sin [(1 / 60, keysTurnRight), (1 / 30, keysForward)] (cameraSetup Real.cos Real.sin)).cameraRotation = 1 ∧
    Quat.normSq (cameraSetup Real.cos Real.sin).cameraRotation = 1 ∧
    Quat.normSq (cameraTicks Real.cos Real.sin
      [(1 / 60, keysTurnRight), (1 / 30, keysForward)]
      (cameraSetup Real.cos Real.sin)).cameraRotation = 1) :=
  ⟨by simp [cameraSetup, quat_ofAngleAxis_zero, Quat.normSq],
    cameraRotation_unit (1 / 60) keysTurnRight (cameraSetup Real.cos Real.sin)
      [(1 / 60, keysTurnRight), (1 / 30, keysForward)]
      (by simp [cameraSetup, quat_ofAngleAxis_zero, Quat.normSq])⟩

/-! ## Theorems: the damped integrator -/

/-- With only `W` held and a unit orientation `q`, a velocity `s` times the forward
direction becomes `s + (4 - 2 s) dt` times the forward direction, and the
orientation is unchanged. -/
theorem cameraStep_forward (dt s : ℝ) (loc : Vec3 ℝ) (q : Quat ℝ) :
    (cameraStep Real.cos Real.sin dt keysForward
        { cameraLocation := loc, cameraVelocity := Vec3.scale (Quat.forward q) s,
          cameraRotation := q }).cameraRotation = q ∧
    (cameraStep Real.cos Real.sin dt keysForward
        { cameraLocation := loc, cameraVelocity := Vec3.scale (Quat.forward q) s,
          cameraRotation := q }).cameraVelocity =
      Vec3.scale (Quat.forward q) (s + (4 - 2 * s) * dt) := by
  constructor
  · exact rotationUpdate_rest dt keysForward q rfl rfl rfl rfl
  · have h1 : (keysForward : Keys ℝ) SDLK_d - keysForward SDLK_a = 0 := by
      simp [keysForward, SDLK_d, SDLK_a, SDLK_w]
    have h2 : (keysForward : Keys ℝ) SDLK_SPACE - keysForward SDLK_LCTRL = 0 := by
      simp [keysForward, SDLK_SPACE, SDLK_LCTRL, SDLK_w]
    have h3 : (keysForward : Keys ℝ) SDLK_w - keysForward SDLK_s = 1 := by
      simp [keysForward, SDLK_s, SDLK_w]
    simp only [cameraStep, cameraAcceleration, h1, h2, h3, Quat.forward, Vec3.forward,
      cameraSpeed, cameraBrake]
    ext <;> simp [Vec3.add, Vec3.sub, Vec3.scale] <;> ring

theorem cameraTicks_forward (n : ℕ) (st : CameraState ℝ)
    (hvel : st.cameraVelocity = Vec3.zero) :
    (cameraTicks Real.cos Real.sin (List.replicate n (1 / 60, keysForward)) st).cameraRotation =
      st.cameraRotation ∧
    (cameraTicks Real.cos Real.sin (List.replicate n (1 / 60, keysForward)) st).cameraVelocity =
      Vec3.scale (Quat.forward st.cameraRotation) (2 - 2 * (29 / 30) ^ n) := by
  induction n with
  | zero =>
    refine ⟨rfl, ?_⟩
    simp [cameraTicks, hvel, Vec3.zero, Vec3.scale]
  | succ n ih =>
    rw [List.replicate_succ', cameraTicks_snoc]
    obtain ⟨hq, hv⟩ := ih
    generalize cameraTicks Real.cos Real.sin (List.replicate n (1 / 60, keysForward)) st = cur
      at hq hv
    obtain ⟨loc, vel, rot⟩ := cur
    simp only at hq hv
    rw [hq, hv]
    obtain ⟨h1, h2⟩ :=
      cameraStep_forward (1 / 60) (2 - 2 * (29 / 30) ^ n) loc st.cameraRotation
    refine ⟨h1, ?_⟩
    rw [h2]
    congr 1
    ring

theorem forwardSpeed_ticks (n : ℕ) (st : CameraState ℝ)
    (h : Quat.normSq st.cameraRotation = 1) (hvel : st.cameraVelocity = Vec3.zero) :
    forwardSpeed (cameraTicks Real.cos Real.sin (List.replicate n (1 / 60, keysForward)) st) =
      2 - 2 * (29 / 30) ^ n := by
  obtain ⟨hq, hv⟩ := cameraTicks_forward n st hvel
  have hf := (quat_squaredSize_axis st.cameraRotation h).2.1
  unfold forwardSpeed
  rw [hq, hv]
  have : Vec3.dot (Vec3.scale (Quat.forward st.cameraRotation) (2 - 2 * (29 / 30) ^ n))
      (Quat.forward st.cameraRotation) =
      (2 - 2 * (29 / 30) ^ n) * Vec3.squaredSize (Quat.forward st.cameraRotation) := by
    simp only [Vec3.dot, Vec3.scale, Vec3.squaredSize]
    ring
  rw [this, hf, mul_one]

/-- C5. Damped integrator, over real arithmetic: from zero velocity and a unit
orientation, with only `W` held, no rotation input and `dt = 1/60`, the speed `s n`
along the forward direction after `n` frames obeys
`s (n + 1) = s n + (4 - 2 * s n) * dt`, is strictly increasing, stays strictly below
`cameraSpeed / cameraBrake = 2`, and `2 - s n = 2 * (29/30) ^ n`, which tends to 0. -/
theorem forwardSpeed_steady_state (st : CameraState ℝ)
    (h : Quat.normSq st.cameraRotation = 1) (hvel : st.cameraVelocity = Vec3.zero) (n : ℕ) :
    forwardSpeed (cameraTicks Real.cos Real.sin (List.replicate (n + 1) (1 / 60, keysForward)) st) =
      forwardSpeed (cameraTicks Real.cos Real.sin (List.replicate n (1 / 60, keysForward)) st) +
        (cameraSpeed - cameraBrake *
          forwardSpeed (cameraTicks Real.cos Real.sin (List.replicate n (1 / 60, keysForward)) st))
          * (1 / 60) ∧
    forwardSpeed (cameraTicks Real.cos Real.sin (List.replicate n (1 / 60, keysForward)) st) <
      forwardSpeed
        (cameraTicks Real.cos Real.sin (List.replicate (n + 1) (1 / 60, keysForward)) st) ∧
    forwardSpeed (cameraTicks Real.cos Real.sin (List.replicate n (1 / 60, keysForward)) st) <
      cameraSpeed / cameraBrake ∧
    (cameraSpeed / cameraBrake : ℝ) = 2 ∧
    2 - forwardSpeed (cameraTicks Real.cos Real.sin (List.replicate n (1 / 60, keysForward)) st) =
      2 * (29 / 30) ^ n ∧
    Filter.Tendsto
      (fun m => 2 - forwardSpeed
        (cameraTicks Real.cos Real.sin (List.replicate m (1 / 60, keysForward)) st))
      Filter.atTop (nhds 0) := by
  have hs := fun m => forwardSpeed_ticks m st h hvel
  have hpos : (0 : ℝ) < (29 / 30) ^ n := by positivity
  simp only [hs, cameraSpeed, cameraBrake]
  have h42 : (4 : ℝ) / 2 = 2 := by norm_num
  refine ⟨by rw [pow_succ]; ring, by rw [pow_succ]; linarith, by rw [h42]; linarith,
    h42, by ring, ?_⟩
  have hlim : Filter.Tendsto (fun m : ℕ => ((29 : ℝ) / 30) ^ m) Filter.atTop (nhds 0) :=
    tendsto_pow_atTop_nhds_zero_of_lt_one (by norm_num) (by norm_num)
  have := hlim.const_mul 2
  simpa using this


theorem forwardSpeed_steady_state_witness :
    Quat.normSq (cameraSetup Real.cos Real.sin).cameraRotation = 1 ∧
    (cameraSetup Real.cos Real.sin).cameraVelocity = Vec3.zero ∧
    (forwardSpeed (cameraTicks Real.cos Real.sin (List.replicate (3 + 1) (1 / 60, keysForward)) (cameraSetup Real.cos Real.sin)) =
      forwardSpeed (cameraTicks Real.cos Real.sin (List.replicate 3 (1 / 60, keysForward)) (cameraSetup Real.cos Real.sin)) +
        (cameraSpeed - cameraBrake *
          forwardSpeed (cameraTicks Real.cos Real.sin (List.replicate 3 (1 / 60, keysForward)) (cameraSetup Real.cos Real.sin)))
          * (1 / 60) ∧
    forwardSpeed (cameraTicks Real.cos Real.sin (List.replicate 3 (1 / 60, keysForward)) (cameraSetup Real.cos Real.sin)) <
      forwardSpeed
        (cameraTicks Real.cos Real.sin (List.replicate (3 + 1) (1 / 60, keysForward)) (cameraSetup Real.cos Real.sin)) ∧
    forwardSpeed (cameraTicks Real.cos Real.sin (List.replicate 3 (1 / 60, keysForward)) (cameraSetup Real.cos Real.sin)) <
      cameraSpeed / cameraBrake ∧
    (cameraSpeed / cameraBrake : ℝ) = 2 ∧
    2 - forwardSpeed (cameraTicks Real.cos Real.sin (List.replicate 3 (1 / 60, keysForward)) (cameraSetup Real.cos Real.sin)) =
      2 * (29 / 30) ^ 3 ∧
    Filter.Tendsto
      (fun m => 2 - forwardSpeed
        (cameraTicks Real.cos Real.sin (List.replicate m (1 / 60, keysForward)) (cameraSetup Real.cos Real.sin)))
      Filter.atTop (nhds 0)) :=
  ⟨by simp [cameraSetup, quat_ofAngleAxis_zero, Quat.normSq], rfl,
    forwardSpeed_steady_state (cameraSetup Real.cos Real.sin)
      (by simp [cameraSetup, quat_ofAngleAxis_zero, Quat.normSq]) rfl 3⟩

/-! ## Theorems: the gradients -/

theorem perm_lookup (perms : List Nat) (hp : perms.Perm (List.range 0x100)) (i : Nat)
    (hi : i < 0x100) : ∃ p, perms[i]? = some p ∧ p < 0x100 := by
  have hlen : perms.length = 0x100 := by rw [hp.length_eq, List.length_range]
  have hi2 : i < perms.length := by omega
  refine ⟨perms[i], List.getElem?_eq_getElem hi2, ?_⟩
  exact List.mem_range.mp (hp.mem_iff.mp (List.getElem_mem hi2))

theorem squaredSize_gradVector (p pp : Nat) :
    Vec3.squaredSize (gradVector Real.cos Real.sin Real.pi p pp) =
      1 + Real.cos ((pp : ℝ) * freq Real.pi) ^ 2 := by
  simp only [Vec3.squaredSize, Vec3.dot, gradVector]
  have := Real.sin_sq_add_cos_sq ((p : ℝ) * freq Real.pi)
  nlinarith [this]

theorem squaredSize_normalize (v : Vec3 ℝ) (hv : 0 < Vec3.squaredSize v) :
    Vec3.squaredSize (Vec3.normalize Real.sqrt v) = 1 := by
  have hs : 0 < Real.sqrt (Vec3.squaredSize v) := Real.sqrt_pos.mpr hv
  have hsq : Real.sqrt (Vec3.squaredSize v) * Real.sqrt (Vec3.squaredSize v) =
      Vec3.squaredSize v := Real.mul_self_sqrt hv.le
  have hne : Real.sqrt (Vec3.squaredSize v) ≠ 0 := ne_of_gt hs
  simp only [Vec3.normalize]
  generalize Real.sqrt (Vec3.squaredSize v) = s at hs hsq hne
  simp only [Vec3.squaredSize, Vec3.dot] at hsq ⊢
  field_simp
  linarith

/-- C7. For every permutation table of `[0, 256)` and every index `i < 256`, both reads
`perms[i]` and `perms[perms[i]]` are in bounds, the vector being normalised has
squared length `1 + cos² (perms[perms[i]] * f) ≥ 1` with `f = 2π/256`, so it is not
the zero vector, and the gradient `grads[i]` has Euclidean length exactly 1 (over real
arithmetic). -/
theorem gradAt_unit (perms : List Nat) (i : Nat) (hp : perms.Perm (List.range 0x100))
    (hi : i < 0x100) :
    ∃ p pp : Nat, perms[i]? = some p ∧ perms[p]? = some pp ∧ p < 0x100 ∧ pp < 0x100 ∧
      Vec3.squaredSize (gradVector Real.cos Real.sin Real.pi p pp) =
        1 + Real.cos ((pp : ℝ) * (2 * Real.pi / 256)) ^ 2 ∧
      1 ≤ Vec3.squaredSize (gradVector Real.cos Real.sin Real.pi p pp) ∧
      gradVector Real.cos Real.sin Real.pi p pp ≠ Vec3.zero ∧
      ∃ g : Vec3 ℝ, gradAt Real.cos Real.sin Real.sqrt Real.pi perms i = some g ∧
        g = Vec3.normalize Real.sqrt (gradVector Real.cos Real.sin Real.pi p pp) ∧
        Real.sqrt (Vec3.squaredSize g) = 1 := by
  obtain ⟨p, hp1, hp2⟩ := perm_lookup perms hp i hi
  obtain ⟨pp, hpp1, hpp2⟩ := perm_lookup perms hp p hp2
  have hsq := squaredSize_gradVector p pp
  have hge : 1 ≤ Vec3.squaredSize (gradVector Real.cos Real.sin Real.pi p pp) := by
    rw [hsq]; nlinarith [sq_nonneg (Real.cos ((pp : ℝ) * freq Real.pi))]
  refine ⟨p, pp, hp1, hpp1, hp2, hpp2, hsq, hge, ?_, _, ?_, rfl, ?_⟩
  · intro h0
    rw [h0] at hge
    simp [Vec3.squaredSize, Vec3.dot, Vec3.zero] at hge
    linarith
  · simp only [gradAt, hp1, hpp1]
  · rw [squaredSize_normalize _ (by linarith), Real.sqrt_one]

theorem gradAt_unit_witness :
    (List.range 0x100).Perm (List.range 0x100) ∧ 3 < 0x100 ∧
    ∃ p pp : Nat, (List.range 0x100)[3]? = some p ∧ (List.range 0x100)[p]? = some pp ∧
      p < 0x100 ∧ pp < 0x100 ∧
      Vec3.squaredSize (gradVector Real.cos Real.sin Real.pi p pp) =
        1 + Real.cos ((pp : ℝ) * (2 * Real.pi / 256)) ^ 2 ∧
      1 ≤ Vec3.squaredSize (gradVector Real.cos Real.sin Real.pi p pp) ∧
      gradVector Real.cos Real.sin Real.pi p pp ≠ Vec3.zero ∧
      ∃ g : Vec3 ℝ, gradAt Real.cos Real.sin Real.sqrt Real.pi (List.range 0x100) 3 = some g ∧
        g = Vec3.normalize Real.sqrt (gradVector Real.cos Real.sin Real.pi p pp) ∧
        Real.sqrt (Vec3.squaredSize g) = 1 :=
  ⟨List.Perm.refl _, by norm_num,
    gradAt_unit (List.range 0x100) 3 (List.Perm.refl _) (by norm_num)⟩


end Vaporworld
